import Mathlib

/-!
# Verification of the `s2_geocoder` World index (src/lib.rs)

Shallow embedding of the `World` structure and its operations.

Modelling conventions:
* `f64` coordinates and distances are modelled by `ℚ` (exact arithmetic; the
  claims under study are about algorithmic structure, not float rounding).
* `u32` feature ids and `u64` cell identifiers are modelled by `ℕ`; the
  64-bit wrap-around of the s2 `parent` bit arithmetic is made explicit.
* `croaring::Bitmap` (a set of u32 with add / union / membership) is modelled
  by `Finset ℕ`.
* `AHashMap<u64, Bitmap>` is modelled by an association list
  `List (ℕ × Finset ℕ)`; hash-map iteration order is not observed by any
  claim, only lookups are.
* The two `rstar::RTree` collaborators are modelled by their contents:
  a list of point records (resp. segment records).  `nearest_neighbor`
  returns an element minimising `distance_2` (modelled by `List.argmin`),
  `nearest_neighbor_iter` yields elements in non-decreasing `distance_2`
  (modelled by an insertion sort on the squared distance), and
  `locate_within_distance (p, d2)` yields the elements whose `distance_2`
  to `p` is at most `d2` (modelled by `List.filter`).
* The s2 coordinate converter `CellID::from(latlng)` is an external
  collaborator; it is kept abstract as a function parameter `leafOf`.
  The s2 `CellID::parent` / `lsb_for_level` bit arithmetic, on which the
  insert loop's behaviour hinges, is embedded exactly.
* The `RegionCoverer` collaborator is kept abstract as a function parameter
  of type `CovererFn`; its §6 contract (bounded result size) enters as a
  hypothesis where a claim needs it.
-/

/-- A point record `TreePoint(lat, lon, id)` from the source. -/
structure TreePoint where
  lat : ℚ
  lon : ℚ
  id : ℕ
deriving DecidableEq, Repr

/-- A line-segment record `GeomWithData<Line<(f64,f64)>, u32>` from the source:
two endpoints and the feature id (`data`). -/
structure SegRecord where
  a : ℚ × ℚ
  b : ℚ × ℚ
  data : ℕ
deriving DecidableEq, Repr

/-- The two explicit failure conditions of the point-index queries:
`notBuilt` models the "No tree found" `std::io::Error`, `noResult` the
"No result" one. -/
inductive GeoError where
  | notBuilt
  | noResult
deriving DecidableEq, Repr

/-- The `World` structure from the source: the cell-to-bitmap mapping, the
level bounds, the optional bulk-built point tree, and the segment tree. -/
structure World where
  cellid_map : List (ℕ × Finset ℕ)
  min_level : ℕ
  max_level : ℕ
  tree : Option (List TreePoint)
  shape_tree : List SegRecord

/-- `World::new(min_level, max_level)`. -/
def World.new (min_level max_level : ℕ) : World :=
  { cellid_map := []
    min_level := min_level
    max_level := max_level
    tree := none
    shape_tree := [] }

/-! ## s2 cell-id bit arithmetic (the `CellID::parent` collaborator) -/

/-- s2 `CellID::lsb_for_level(level) = 1 << (2 * (MAX_LEVEL - level))` with
`MAX_LEVEL = 30` (natural subtraction models the u64 subtraction for the
levels `≤ 30` actually used). -/
def lsbForLevel (level : ℕ) : ℕ := 2 ^ (2 * (30 - level))

/-- s2 `CellID::parent(level) = (self.0 & lsb.wrapping_neg()) | lsb`:
`lsb.wrapping_neg()` on u64 is `2^64 - lsb`. -/
def cellParent (id level : ℕ) : ℕ :=
  (id &&& (2 ^ 64 - lsbForLevel level)) ||| lsbForLevel level

/-! ## The cell-to-bitmap association list -/

/-- Bitmap lookup in the cell map; an absent cell reads as the empty bitmap
(matching both `entry(..).or_insert_with(Bitmap::default)` on insertion and
`get(..).unwrap_or(&empty_bitmap)` on query). -/
def findBM : List (ℕ × Finset ℕ) → ℕ → Finset ℕ
  | [], _ => ∅
  | (k, s) :: rest, key => if k = key then s else findBM rest key

/-- `self.cellid_map.entry(id).or_insert_with(Bitmap::default); bitmap.add(item_id)`:
add `x` to the bitmap stored under `key`, creating the entry if absent. -/
def addToCell : List (ℕ × Finset ℕ) → ℕ → ℕ → List (ℕ × Finset ℕ)
  | [], key, x => [(key, {x})]
  | (k, s) :: rest, key, x =>
      if k = key then (k, insert x s) :: rest else (k, s) :: addToCell rest key x

/-- The level sequence `min_level..=max_level` of the Rust `for` loop. -/
def levelRange (lo hi : ℕ) : List ℕ := List.range' lo (hi + 1 - lo)

/-- The body of `World::insert`'s loop: `id` is reassigned to `id.parent(i)`
at every iteration (exactly as in the source, where the reassignment makes
each step take the parent of the previous *already coarsened* cell). -/
def insertLoop : List ℕ → ℕ → List (ℕ × Finset ℕ) → ℕ → List (ℕ × Finset ℕ)
  | [], _, m, _ => m
  | i :: rest, id, m, x =>
      insertLoop rest (cellParent id i) (addToCell m (cellParent id i) x) x

/-- The sequence of cell keys touched by `World::insert`'s loop. -/
def chainKeys : List ℕ → ℕ → List ℕ
  | [], _ => []
  | i :: rest, id => cellParent id i :: chainKeys rest (cellParent id i)

/-- `World::insert(coords, item_id)`: convert `coords` to a leaf cell id via
the abstract converter `leafOf` (the `CellID::from(latlng)` collaborator),
then run the per-level loop. -/
def World.insert (w : World) (leafOf : ℚ × ℚ → ℕ) (coords : ℚ × ℚ)
    (item_id : ℕ) : World :=
  { w with
    cellid_map :=
      insertLoop (levelRange w.min_level w.max_level) (leafOf coords)
        w.cellid_map item_id }

/-- The bitmap stored under the *true* ancestor at `level` of the leaf cell
of `coords` — the cell the specification says receives the feature id. -/
def ancestorAt (leafOf : ℚ × ℚ → ℕ) (coords : ℚ × ℚ) (level : ℕ) : ℕ :=
  cellParent (leafOf coords) level

/-! ## within_radius -/

/-- The `RegionCoverer` collaborator: given the cap centre, the angular
radius in degrees, `min_level`, `max_level` and `max_cells`, produce the
list of covering cell ids. -/
def CovererFn : Type :=
  ℚ × ℚ → ℚ → ℕ → ℕ → ℕ → List ℕ

/-- `Bitmap::fast_or_heap`: the multi-way union of a list of bitmaps. -/
def fastOrHeap (l : List (Finset ℕ)) : Finset ℕ := l.foldr (· ∪ ·) ∅

/-- `World::within_radius(coords, radius, max_cells)`: converts `radius`
(km) to degrees by `radius / 111.0`, asks the coverer for a covering of the
cap at levels `[min_level, max_level]` with at most `max_cells` cells, looks
every covering cell up (absent ↦ empty bitmap) and returns the multi-way OR. -/
def World.within_radius (w : World) (coverer : CovererFn) (coords : ℚ × ℚ)
    (radius : ℚ) (max_cells : ℕ) : Finset ℕ :=
  let radius_in_deg := radius / 111
  let cells := coverer coords radius_in_deg w.min_level w.max_level max_cells
  fastOrHeap (cells.map (fun c => findBM w.cellid_map c))

/-! ## The point index -/

/-- `World::build_reverse_geocode_index(points)`: bulk-load the list into a
fresh tree, replacing any previous one (the `println!` is observability
only and has no bearing on state). -/
def World.build_reverse_geocode_index (w : World) (points : List TreePoint) :
    World :=
  { w with tree := some points }

/-- `TreePoint::distance_2`: planar squared Euclidean distance between the
record and the query `[lat, lon]`. -/
def TreePoint.distance_2 (p : TreePoint) (q : ℚ × ℚ) : ℚ :=
  let dx := p.lat - q.1
  let dy := p.lon - q.2
  dx * dx + dy * dy

/-- `World::nearest((lat, lon), limit)`: `limit` is accepted but never read.
The tree collaborator's `nearest_neighbor` returns an element minimising
`distance_2`, modelled by `List.argmin`. -/
def World.nearest (w : World) (q : ℚ × ℚ) (limit : ℕ) : Except GeoError ℕ :=
  match w.tree with
  | some pts =>
      match pts.argmin (fun p => p.distance_2 q) with
      | some p => .ok p.id
      | none => .error .noResult
  | none => .error .notBuilt

/-- The tree collaborator's `nearest_neighbor_iter`: the records in
non-decreasing `distance_2` order. -/
def sortByDist (pts : List TreePoint) (q : ℚ × ℚ) : List TreePoint :=
  pts.insertionSort (fun a b => a.distance_2 q ≤ b.distance_2 q)

/-- `World::nearest_vec((lat, lon), limit)`: map the ascending-distance
iterator to ids and take at most `limit` of them; error only when no tree
was built. -/
def World.nearest_vec (w : World) (q : ℚ × ℚ) (limit : ℕ) :
    Except GeoError (List ℕ) :=
  match w.tree with
  | some pts => .ok (((sortByDist pts q).map (fun p => p.id)).take limit)
  | none => .error .notBuilt

/-! ## The shape index -/

/-- The consecutive point-pairs `coords.windows(2)` of a polyline, each made
into a segment record carrying `item_id`. -/
def segmentsOf (coords : List (ℚ × ℚ)) (item_id : ℕ) : List SegRecord :=
  (coords.zip coords.tail).map (fun pr => ⟨pr.1, pr.2, item_id⟩)

/-- `World::insert_shape(coords, item_id)`: early return when the polyline
has fewer than 2 points, otherwise insert one segment per window of 2. -/
def World.insert_shape (w : World) (coords : List (ℚ × ℚ)) (item_id : ℕ) :
    World :=
  if coords.length < 2 then w
  else { w with shape_tree := w.shape_tree ++ segmentsOf coords item_id }

/-- The loop of `World::insert_shapes`: the `return` inside the `for` exits
the whole function, so a short polyline aborts the remaining list. -/
def insertShapesLoop (shapes : List (List (ℚ × ℚ))) (item_id : ℕ)
    (st : List SegRecord) : List SegRecord :=
  match shapes with
  | [] => st
  | coords :: rest =>
      if coords.length < 2 then st
      else insertShapesLoop rest item_id (st ++ segmentsOf coords item_id)

/-- `World::insert_shapes(shapes, item_id)`. -/
def World.insert_shapes (w : World) (shapes : List (List (ℚ × ℚ)))
    (item_id : ℕ) : World :=
  { w with shape_tree := insertShapesLoop shapes item_id w.shape_tree }

/-- rstar `Line::nearest_point`: project the query on the segment's
supporting line and clamp the parameter to `[0, 1]`. -/
def lineNearestPoint (a b p : ℚ × ℚ) : ℚ × ℚ :=
  let dir : ℚ × ℚ := (b.1 - a.1, b.2 - a.2)
  let len2 : ℚ := dir.1 * dir.1 + dir.2 * dir.2
  let s : ℚ := ((p.1 - a.1) * dir.1 + (p.2 - a.2) * dir.2) / len2
  if s < 0 then a
  else if 1 < s then b
  else (a.1 + dir.1 * s, a.2 + dir.2 * s)

/-- rstar `Line::distance_2`: squared distance from the query point to the
nearest point of the segment. -/
def segDist2 (r : SegRecord) (p : ℚ × ℚ) : ℚ :=
  let n := lineNearestPoint r.a r.b p
  (p.1 - n.1) * (p.1 - n.1) + (p.2 - n.2) * (p.2 - n.2)

/-- `World::shapes_within_radius((lat, lon), radius)`: the tree collaborator
`locate_within_distance((lat, lon), radius * radius)` selects the records
whose squared point-to-segment distance is at most `radius * radius`; their
`data` fields are collected. -/
def World.shapes_within_radius (w : World) (p : ℚ × ℚ) (radius : ℚ) :
    List ℕ :=
  ((w.shape_tree.filter (fun r => segDist2 r p ≤ radius * radius)).map
    (fun r => r.data))

/-! ## Helper lemmas -/

theorem findBM_addToCell (m : List (ℕ × Finset ℕ)) (key x k : ℕ) :
    findBM (addToCell m key x) k =
      if k = key then insert x (findBM m k) else findBM m k := by
  induction m with
  | nil =>
      by_cases h : k = key
      · subst h; simp [addToCell, findBM]
      · have h2 : ¬ key = k := fun hh => h hh.symm
        simp [addToCell, findBM, h, h2]
  | cons e rest ih =>
      obtain ⟨k', s⟩ := e
      by_cases h1 : k' = key
      · subst h1
        by_cases h2 : k' = k
        · subst h2; simp [addToCell, findBM]
        · have h3 : ¬ k = k' := fun hh => h2 hh.symm
          simp [addToCell, findBM, h2, h3]
      · by_cases h2 : k' = k
        · subst h2
          simp [addToCell, h1, findBM]
        · simp [addToCell, h1, findBM, h2, ih]

theorem findBM_insertLoop (lvls : List ℕ) (id : ℕ)
    (m : List (ℕ × Finset ℕ)) (x k : ℕ) :
    findBM (insertLoop lvls id m x) k =
      if k ∈ chainKeys lvls id then insert x (findBM m k) else findBM m k := by
  induction lvls generalizing id m with
  | nil => simp [insertLoop, chainKeys]
  | cons i rest ih =>
      simp only [insertLoop, chainKeys, ih, findBM_addToCell, List.mem_cons]
      by_cases h1 : k ∈ chainKeys rest (cellParent id i)
      · by_cases h2 : k = cellParent id i <;> simp [h1, h2, Finset.insert_idem]
      · by_cases h2 : k = cellParent id i <;> simp [h1, h2]

theorem mem_fastOrHeap (l : List (Finset ℕ)) (x : ℕ) :
    x ∈ fastOrHeap l ↔ ∃ s ∈ l, x ∈ s := by
  induction l with
  | nil => simp [fastOrHeap]
  | cons s rest ih => simp [fastOrHeap, List.foldr] at *; simp [ih]

theorem insertShapesLoop_eq (shapes : List (List (ℚ × ℚ))) (item_id : ℕ)
    (st : List SegRecord) :
    insertShapesLoop shapes item_id st =
      st ++ ((shapes.takeWhile (fun c => decide (2 ≤ c.length))).flatMap
        (fun c => segmentsOf c item_id)) := by
  induction shapes generalizing st with
  | nil => simp [insertShapesLoop]
  | cons c rest ih =>
      by_cases h : c.length < 2
      · have : ¬ (2 ≤ c.length) := by omega
        simp [insertShapesLoop, h, List.takeWhile_cons, this]
      · have h2 : 2 ≤ c.length := by omega
        simp [insertShapesLoop, h, List.takeWhile_cons, h2, ih,
          List.append_assoc]

theorem segmentsOf_getElem (coords : List (ℚ × ℚ)) (item_id j : ℕ) :
    (segmentsOf coords item_id)[j]? =
      (coords[j]?).bind fun p =>
        (coords[j + 1]?).map fun q => SegRecord.mk p q item_id := by
  induction coords generalizing j with
  | nil => simp [segmentsOf]
  | cons p rest ih =>
      cases rest with
      | nil => cases j <;> simp [segmentsOf]
      | cons q rest2 =>
          cases j with
          | zero => simp [segmentsOf]
          | succ j2 =>
              have h := ih j2
              simpa [segmentsOf] using h

theorem segmentsOf_length (coords : List (ℚ × ℚ)) (item_id : ℕ) :
    (segmentsOf coords item_id).length = coords.length - 1 := by
  simp [segmentsOf, List.length_zip, List.length_tail]

theorem segmentsOf_data (coords : List (ℚ × ℚ)) (item_id : ℕ) :
    ∀ r ∈ segmentsOf coords item_id, r.data = item_id := by
  intro r hr
  simp only [segmentsOf, List.mem_map] at hr
  obtain ⟨pr, _, h⟩ := hr
  subst h
  rfl

/-! ## Claim theorems -/

/-- C7: `insert_shape(polyline, feature_id)` leaves the Shape Neighbor Index
unchanged (with no error) when the polyline has fewer than 2 points, and
otherwise appends exactly `N − 1` segment records, the `j`-th one joining the
`j`-th and `(j+1)`-th points of the polyline, all carrying `feature_id`. -/
theorem insert_shape_spec (w : World) (coords : List (ℚ × ℚ)) (item_id : ℕ) :
    (coords.length < 2 → w.insert_shape coords item_id = w) ∧
    (2 ≤ coords.length →
      ∃ recs : List SegRecord,
        (w.insert_shape coords item_id).shape_tree = w.shape_tree ++ recs ∧
        recs.length = coords.length - 1 ∧
        (∀ r ∈ recs, r.data = item_id) ∧
        (∀ j : ℕ, recs[j]? =
          (coords[j]?).bind fun p =>
            (coords[j + 1]?).map fun q => SegRecord.mk p q item_id)) := by
  constructor
  · intro h
    simp [World.insert_shape, h]
  · intro h
    have h2 : ¬ coords.length < 2 := by omega
    refine ⟨segmentsOf coords item_id, by simp [World.insert_shape, h2],
      segmentsOf_length coords item_id, segmentsOf_data coords item_id,
      fun j => segmentsOf_getElem coords item_id j⟩

/-- C7 witness: a 1-point polyline is a no-op and a 3-point polyline
contributes exactly 2 segment records with feature id 5. -/
theorem insert_shape_spec_witness :
    ((World.new 9 12).insert_shape [(0, 0)] 5 = World.new 9 12) ∧
    (∃ recs : List SegRecord,
      ((World.new 9 12).insert_shape [(0, 0), (0, 1), (0, 2)] 5).shape_tree =
        (World.new 9 12).shape_tree ++ recs ∧
      recs.length = 2 ∧
      (∀ r ∈ recs, r.data = 5) ∧
      (∀ j : ℕ, recs[j]? =
        (([(0, 0), (0, 1), (0, 2)] : List (ℚ × ℚ))[j]?).bind fun p =>
          (([(0, 0), (0, 1), (0, 2)] : List (ℚ × ℚ))[j + 1]?).map fun q =>
            SegRecord.mk p q 5)) :=
  ⟨(insert_shape_spec (World.new 9 12) [(0, 0)] 5).1 (by decide),
   (insert_shape_spec (World.new 9 12) [(0, 0), (0, 1), (0, 2)] 5).2
     (by decide)⟩

/-- C3: `insert_shapes(list, feature_id)` appends the segment records of the
longest prefix of polylines with at least 2 points; the first short polyline
aborts the rest of the list silently (the inserted prefix stays, no error is
raised, later polylines contribute nothing). -/
theorem insert_shapes_spec (w : World) (shapes : List (List (ℚ × ℚ)))
    (item_id : ℕ) :
    (w.insert_shapes shapes item_id).shape_tree =
      w.shape_tree ++
        ((shapes.takeWhile (fun c => decide (2 ≤ c.length))).flatMap
          (fun c => segmentsOf c item_id)) ∧
    (∀ r ∈ (shapes.takeWhile (fun c => decide (2 ≤ c.length))).flatMap
        (fun c => segmentsOf c item_id), r.data = item_id) := by
  constructor
  · simp [World.insert_shapes, insertShapesLoop_eq]
  · intro r hr
    rw [List.mem_flatMap] at hr
    obtain ⟨c, _, hr2⟩ := hr
    exact segmentsOf_data c item_id r hr2

/-- C2 (amended): `shapes_within_radius(coords, radius)` applies no
km-to-degree conversion, but `radius` is a plain (linear) distance in raw
coordinate units that the function squares itself: the ids returned are
exactly those owning a segment whose squared point-to-segment distance is at
most `radius * radius`. -/
theorem shapes_within_radius_spec (w : World) (p : ℚ × ℚ) (radius : ℚ)
    (x : ℕ) :
    x ∈ w.shapes_within_radius p radius ↔
      ∃ r ∈ w.shape_tree, r.data = x ∧ segDist2 r p ≤ radius * radius := by
  simp only [World.shapes_within_radius, List.mem_map, List.mem_filter,
    decide_eq_true_eq]
  constructor
  · rintro ⟨r, ⟨hmem, hle⟩, hdata⟩
    exact ⟨r, hmem, hdata, hle⟩
  · rintro ⟨r, hmem, hdata, hle⟩
    exact ⟨r, ⟨hmem, hle⟩, hdata⟩

/-- The world used to refute C2 as stated: one segment from (0,0) to (0,2)
owned by feature 5. -/
def c2World : World := (World.new 9 12).insert_shape [(0, 0), (0, 2)] 5

/-- C2 (counterexample): at query point (17/10, 1) the unique segment of
feature 5 has squared point-to-segment distance 289/100, which exceeds the
radius argument 2, yet `shapes_within_radius` returns 5 — so the radius is
not treated as an already-squared bound on the squared distance. -/
theorem shapes_within_radius_claim_false :
    c2World.shape_tree = [SegRecord.mk (0, 0) (0, 2) 5] ∧
    5 ∈ c2World.shapes_within_radius (17 / 10, 1) 2 ∧
    ¬ segDist2 (SegRecord.mk (0, 0) (0, 2) 5) (17 / 10, 1) ≤ 2 := by
  refine ⟨rfl, ?_, by norm_num [segDist2, lineNearestPoint]⟩
  norm_num [c2World, World.shapes_within_radius, World.insert_shape,
    World.new, segmentsOf, segDist2, lineNearestPoint]

/-- Sample points for exercising the point-index claims (the §8 example
scenario: (10,10) with id 1 and (10.001, 10.001) with id 2). -/
def samplePts : List TreePoint :=
  [TreePoint.mk 10 10 1, TreePoint.mk (10 + 1/1000) (10 + 1/1000) 2]

/-- A world whose point index has been built from `samplePts`. -/
def sampleWorld : World :=
  (World.new 9 12).build_reverse_geocode_index samplePts

/-- C5: `nearest(coords)` fails with the NotBuilt condition when `build` was
never called, fails with the NoResult condition when the tree is built but
empty, and otherwise returns `Ok` with the id of a closest point record by
planar squared Euclidean distance on raw (lat, lon); being a total function
it never crashes. -/
theorem nearest_spec (w : World) (q : ℚ × ℚ) (limit : ℕ) :
    (w.tree = none → w.nearest q limit = .error .notBuilt) ∧
    (w.tree = some [] → w.nearest q limit = .error .noResult) ∧
    (∀ pts, w.tree = some pts → pts ≠ [] →
      ∃ p ∈ pts, w.nearest q limit = .ok p.id ∧
        ∀ p2 ∈ pts, p.distance_2 q ≤ p2.distance_2 q) := by
  refine ⟨fun h => by simp [World.nearest, h],
    fun h => by simp [World.nearest, h], ?_⟩
  intro pts h hne
  rcases hm : pts.argmin (fun p => p.distance_2 q) with _ | p
  · exact absurd (List.argmin_eq_none.mp hm) hne
  · exact ⟨p, List.argmin_mem (Option.mem_def.mpr hm),
      by simp [World.nearest, h, hm],
      fun p2 h2 => List.le_of_mem_argmin h2 (Option.mem_def.mpr hm)⟩

/-- C5 witness: the three clauses of `nearest_spec` discharged on concrete
worlds — unbuilt, built-empty, and built from `samplePts`. -/
theorem nearest_spec_witness :
    (World.new 9 12).nearest (0, 0) 1 = .error .notBuilt ∧
    ((World.new 9 12).build_reverse_geocode_index []).nearest (0, 0) 1 =
      .error .noResult ∧
    (∃ p ∈ samplePts, sampleWorld.nearest (10, 10) 1 = .ok p.id ∧
      ∀ p2 ∈ samplePts, p.distance_2 (10, 10) ≤ p2.distance_2 (10, 10)) :=
  ⟨(nearest_spec (World.new 9 12) (0, 0) 1).1 rfl,
   (nearest_spec ((World.new 9 12).build_reverse_geocode_index [])
     (0, 0) 1).2.1 rfl,
   (nearest_spec sampleWorld (10, 10) 1).2.2 samplePts rfl (by simp [samplePts])⟩

/-- C9: `nearest_vec` on a world whose point index was built from an empty
point list returns `Ok` with the empty sequence — only `nearest` errors in
the built-but-empty case. -/
theorem nearest_vec_built_empty (w : World) (q : ℚ × ℚ) (limit : ℕ)
    (h : w.tree = some []) : w.nearest_vec q limit = .ok [] := by
  simp [World.nearest_vec, h, sortByDist]

/-- C9 witness: building with an empty list then querying `nearest_vec`
yields `Ok []`. -/
theorem nearest_vec_built_empty_witness :
    ((World.new 9 12).build_reverse_geocode_index []).nearest_vec (0, 0) 3 =
      .ok [] :=
  nearest_vec_built_empty ((World.new 9 12).build_reverse_geocode_index [])
    (0, 0) 3 rfl

/-- C10: the `limit` parameter of `nearest` (absent from the specified
`nearest(point)` signature) has no influence on its output: any two limits
give the same result on the same world and query. -/
theorem nearest_ignores_limit (w : World) (q : ℚ × ℚ) (l1 l2 : ℕ) :
    w.nearest q l1 = w.nearest q l2 := rfl

/-- C6: if the point index was built, `nearest_vec(coords, limit)` returns
`Ok` with the ids of the first `limit` records of a reordering of the built
points that is non-decreasing in planar squared distance from `coords`
(hence at most `limit` ids, in non-decreasing distance order); with
`limit = N` after building with `N` points it returns all `N` ids; if no
index was built it fails exactly like `nearest`, with the NotBuilt value. -/
theorem nearest_vec_spec (w : World) (q : ℚ × ℚ) (limit : ℕ) :
    (w.tree = none → w.nearest_vec q limit = .error .notBuilt) ∧
    (∀ pts, w.tree = some pts →
      ∃ sorted : List TreePoint,
        sorted.Perm pts ∧
        List.Pairwise (fun p1 p2 => p1.distance_2 q ≤ p2.distance_2 q)
          sorted ∧
        w.nearest_vec q limit = .ok ((sorted.take limit).map (fun p => p.id)) ∧
        ((sorted.take limit).map (fun p => p.id)).length ≤ limit ∧
        (limit = pts.length →
          ((sorted.take limit).map (fun p => p.id)).Perm
            (pts.map (fun p => p.id)))) := by
  refine ⟨fun h => by simp [World.nearest_vec, h], ?_⟩
  intro pts h
  haveI ht : IsTotal TreePoint
      (fun p1 p2 => p1.distance_2 q ≤ p2.distance_2 q) :=
    ⟨fun a b => le_total (a.distance_2 q) (b.distance_2 q)⟩
  haveI htr : IsTrans TreePoint
      (fun p1 p2 => p1.distance_2 q ≤ p2.distance_2 q) :=
    ⟨fun _ _ _ hab hbc => le_trans hab hbc⟩
  have hperm : (sortByDist pts q).Perm pts := List.perm_insertionSort _ pts
  refine ⟨sortByDist pts q, hperm, List.sorted_insertionSort _ pts, ?_, ?_, ?_⟩
  · simp [World.nearest_vec, h, sortByDist]
  · simp
  · intro hlim
    have hlen : (sortByDist pts q).length = pts.length := hperm.length_eq
    have htake : (sortByDist pts q).take limit = sortByDist pts q :=
      List.take_of_length_le (by rw [hlen, hlim])
    rw [htake]
    exact hperm.map (fun p => p.id)

/-- C6 witness: the clauses of `nearest_vec_spec` discharged on concrete
worlds — the unbuilt world errors with NotBuilt, and on `sampleWorld` the
existential conclusion holds at query (10,10) with limit 2. -/
theorem nearest_vec_spec_witness :
    (World.new 9 12).nearest_vec (0, 0) 4 = .error .notBuilt ∧
    (∃ sorted : List TreePoint,
      sorted.Perm samplePts ∧
      List.Pairwise (fun p1 p2 => p1.distance_2 (10, 10) ≤
        p2.distance_2 (10, 10)) sorted ∧
      sampleWorld.nearest_vec (10, 10) 2 =
        .ok ((sorted.take 2).map (fun p => p.id)) ∧
      ((sorted.take 2).map (fun p => p.id)).length ≤ 2 ∧
      (2 = samplePts.length →
        ((sorted.take 2).map (fun p => p.id)).Perm
          (samplePts.map (fun p => p.id)))) :=
  ⟨(nearest_vec_spec (World.new 9 12) (0, 0) 4).1 rfl,
   (nearest_vec_spec sampleWorld (10, 10) 2).2 samplePts rfl⟩

/-- C8: `insert` is idempotent — after inserting the same (coords, id) pair
twice, every cell's bitmap has exactly the same contents and the same
cardinality as after the first insertion. -/
theorem insert_idempotent (w : World) (leafOf : ℚ × ℚ → ℕ) (coords : ℚ × ℚ)
    (item_id k : ℕ) :
    findBM (((w.insert leafOf coords item_id).insert leafOf coords
        item_id).cellid_map) k =
      findBM ((w.insert leafOf coords item_id).cellid_map) k ∧
    (findBM (((w.insert leafOf coords item_id).insert leafOf coords
        item_id).cellid_map) k).card =
      (findBM ((w.insert leafOf coords item_id).cellid_map) k).card := by
  have h : findBM (((w.insert leafOf coords item_id).insert leafOf coords
      item_id).cellid_map) k =
      findBM ((w.insert leafOf coords item_id).cellid_map) k := by
    simp only [World.insert, findBM_insertLoop]
    by_cases hk :
        k ∈ chainKeys (levelRange w.min_level w.max_level) (leafOf coords) <;>
      simp [hk, Finset.insert_idem]
  exact ⟨h, by rw [h]⟩

/-- The abstract coordinate converter instantiated at the s2 leaf cell id 1
(the first leaf of face 0 — a legitimate leaf cell identifier). -/
def c1Leaf : ℚ × ℚ → ℕ := fun _ => 1

/-- The world used to exhibit the C1 defect: default levels 9..12, one
feature (id 7) inserted at a point whose leaf cell id is 1. -/
def buggyWorld : World := (World.new 9 12).insert c1Leaf (0, 0) 7

/-- C1 (code defect): after `insert`, the bitmap under the true ancestor at
the minimum level 9 does contain the feature id, but the bitmap under the
true ancestor at level 10 (a level inside [min_level, max_level]) does not —
the loop reassigns `id = id.parent(i)`, so from the second iteration on it
calls the s2 `parent` with a level finer than the current cell's and stores
under a wrong key, contradicting the specified per-level ancestor invariant. -/
theorem insert_misses_true_ancestor :
    7 ∈ findBM buggyWorld.cellid_map (ancestorAt c1Leaf (0, 0) 9) ∧
    7 ∉ findBM buggyWorld.cellid_map (ancestorAt c1Leaf (0, 0) 10) ∧
    7 ∈ findBM buggyWorld.cellid_map (2 ^ 42 + 2 ^ 40) := by
  decide

/-- C4: `within_radius(coords, radius_km, max_cells)` converts the km radius
to an angular radius by dividing by 111, requests a covering of the
resulting cap at levels [min_level, max_level] bounded by `max_cells` (the
bound being the coverer collaborator's §6 contract, taken as a hypothesis),
and returns the multi-way union of the covering cells' bitmaps with every
absent cell read as an empty bitmap; the function is total, so it never
fails and may return the empty bitmap. -/
theorem within_radius_spec (w : World) (coverer : CovererFn)
    (coords : ℚ × ℚ) (radius : ℚ) (max_cells : ℕ)
    (hcov : ∀ center rdeg lo hi k, (coverer center rdeg lo hi k).length ≤ k) :
    (coverer coords (radius / 111) w.min_level w.max_level max_cells).length
      ≤ max_cells ∧
    ∀ x, x ∈ w.within_radius coverer coords radius max_cells ↔
      ∃ c ∈ coverer coords (radius / 111) w.min_level w.max_level max_cells,
        x ∈ findBM w.cellid_map c := by
  refine ⟨hcov coords (radius / 111) w.min_level w.max_level max_cells,
    fun x => ?_⟩
  simp only [World.within_radius, mem_fastOrHeap, List.mem_map]
  constructor
  · rintro ⟨s, ⟨c, hc, hs⟩, hx⟩
    exact ⟨c, hc, hs ▸ hx⟩
  · rintro ⟨c, hc, hx⟩
    exact ⟨findBM w.cellid_map c, ⟨c, hc, rfl⟩, hx⟩

/-- A concrete coverer satisfying the bounded-size contract: it returns the
level-9 cell 2^42 whenever `max_cells` allows one cell at all. -/
def sampleCoverer : CovererFn := fun _ _ _ _ k => if k = 0 then [] else [2 ^ 42]

/-- C4 witness: on the world holding feature 7 and a coverer that covers
with the single cell 2^42, `within_radius` with a 5 km radius and room for
4 cells returns a bitmap containing 7, and the covering is within bounds. -/
theorem within_radius_spec_witness :
    (sampleCoverer (0, 0) (5 / 111) 9 12 4).length ≤ 4 ∧
    7 ∈ buggyWorld.within_radius sampleCoverer (0, 0) 5 4 := by
  have hcov : ∀ (center : ℚ × ℚ) (rdeg : ℚ) (lo hi k : ℕ),
      (sampleCoverer center rdeg lo hi k).length ≤ k := by
    intro _ _ _ _ k
    cases k <;> simp [sampleCoverer]
  have h := within_radius_spec buggyWorld sampleCoverer (0, 0) 5 4 hcov
  exact ⟨h.1, (h.2 7).mpr ⟨2 ^ 42, by decide, by decide⟩⟩
